import Mathlib

/-!
Verification development for the consulting-site repository: shallow
embedding of the email/notification pipeline (email-service.ts,
email-templates.ts, the contact / consultation / application route
handlers, and the sanitizer configuration in utils.ts), together with
theorems settling the specification claims.

Strings are handled through `List Char`; machine-level concerns do not
arise.  External collaborators (zod's `.email()` / `.datetime()`
checks, the rate limiter) are abstracted as boolean-valued parameters,
matching the spec's "used, not built" scoping.
-/

/-! ## Generic list utilities -/

/-- `leadsWith p s` decides whether `p` is a prefix of `s`. -/
def leadsWith : List Char → List Char → Bool
  | [], _ => true
  | _ :: _, [] => false
  | a :: as, b :: bs => a = b && leadsWith as bs

theorem leadsWith_iff (p s : List Char) :
    leadsWith p s = true ↔ ∃ t, s = p ++ t := by
  induction p generalizing s with
  | nil => simp [leadsWith]
  | cons a as ih =>
    cases s with
    | nil => simp [leadsWith]
    | cons b bs =>
      simp only [leadsWith, Bool.and_eq_true, decide_eq_true_eq, ih]
      constructor
      · rintro ⟨rfl, t, rfl⟩; exact ⟨t, rfl⟩
      · rintro ⟨t, h⟩
        cases h
        exact ⟨rfl, t, rfl⟩

/-- Leftmost occurrence of `pat` in `s`: returns the part before the
occurrence and the part after it. -/
def splitFirst (pat : List Char) : List Char → Option (List Char × List Char)
  | [] => if leadsWith pat [] then some ([], ([] : List Char).drop pat.length) else none
  | c :: rest =>
    if leadsWith pat (c :: rest) then some ([], (c :: rest).drop pat.length)
    else (splitFirst pat rest).map (fun p => (c :: p.1, p.2))

theorem splitFirst_eq_append {pat s a b : List Char}
    (h : splitFirst pat s = some (a, b)) : s = a ++ pat ++ b := by
  induction s generalizing a b with
  | nil =>
    simp only [splitFirst] at h
    split at h
    · rename_i hw
      obtain ⟨t, ht⟩ := (leadsWith_iff pat []).mp hw
      have hp : pat = [] := by
        cases pat with
        | nil => rfl
        | cons x xs => simp at ht
      cases h
      simp [hp] at ht ⊢
    · cases h
  | cons c rest ih =>
    simp only [splitFirst] at h
    split at h
    · rename_i hw
      obtain ⟨t, ht⟩ := (leadsWith_iff pat (c :: rest)).mp hw
      cases h
      simp [ht, List.drop_append]
    · cases hr : splitFirst pat rest with
      | none => simp [hr] at h
      | some p =>
        simp only [hr, Option.map_some] at h
        cases h
        have := ih hr
        simp [this]

theorem splitFirst_some_length {pat s a b : List Char}
    (hp : pat ≠ []) (h : splitFirst pat s = some (a, b)) :
    b.length < s.length := by
  have hs := splitFirst_eq_append h
  have : 1 ≤ pat.length := by
    cases pat with
    | nil => exact absurd rfl hp
    | cons x xs => simp
  subst hs
  simp [List.length_append]
  omega

/-- The part before the leftmost occurrence contains no occurrence. -/
theorem splitFirst_before_none {pat s a b : List Char}
    (hp : pat ≠ []) (h : splitFirst pat s = some (a, b)) :
    splitFirst pat a = none := by
  induction s generalizing a b with
  | nil =>
    simp only [splitFirst] at h
    split at h
    · rename_i hw
      obtain ⟨t, ht⟩ := (leadsWith_iff pat []).mp hw
      cases pat with
      | nil => exact absurd rfl hp
      | cons x xs => simp at ht
    · cases h
  | cons c rest ih =>
    simp only [splitFirst] at h
    split at h
    · rename_i hw
      cases h
      have hneg : ¬leadsWith pat [] = true := by
        intro hcontra
        obtain ⟨t, ht⟩ := (leadsWith_iff pat []).mp hcontra
        cases pat with
        | nil => exact hp rfl
        | cons x xs => simp at ht
      simp only [splitFirst]
      rw [if_neg hneg]
    · rename_i hnw
      cases hr : splitFirst pat rest with
      | none => simp [hr] at h
      | some p =>
        simp only [hr, Option.map_some] at h
        cases h
        have ha' := ih hr
        have hneg : ¬leadsWith pat (c :: p.1) = true := by
          intro hcontra
          obtain ⟨t, ht⟩ := (leadsWith_iff pat (c :: p.1)).mp hcontra
          -- p.1 is a prefix of rest, so pat would be a prefix of c :: rest
          have hrest := splitFirst_eq_append hr
          apply hnw
          rw [leadsWith_iff]
          exact ⟨t ++ pat ++ p.2, by
            calc c :: rest
                = (c :: p.1) ++ (pat ++ p.2) := by simp [hrest]
              _ = (pat ++ t) ++ (pat ++ p.2) := by rw [← ht]
              _ = pat ++ (t ++ pat ++ p.2) := by simp [List.append_assoc]⟩
        simp only [splitFirst]
        rw [if_neg hneg, ha']
        rfl

/-! ## JavaScript global string replacement

`email-templates.ts` substitutes `\x7b\x7bkey\x7d\x7d` placeholders with
`String.prototype.replace(new RegExp(..., 'g'), String(value))`.  For
keys free of regex metacharacters (all keys used by the repository are
plain identifiers) the pattern is the literal placeholder, but the
replacement string is still interpreted by JavaScript's GetSubstitution:
`$$`, `$&`, a dollar followed by a backquote, and a dollar followed by
an apostrophe are expanded; any other `$` is copied literally.  The
functions below embed that semantics.  Recursion is phrased with a
structural fuel counter equal to the length of the remaining input,
which the length-decrease lemma above shows is never exhausted. -/

/-- GetSubstitution for a pattern with no capture groups: `matched` is
the matched text, `bef` the part of the whole input before the match,
`aft` the part after it. -/
def expandRepl (matched bef aft : List Char) : List Char → List Char
  | [] => []
  | c :: rest =>
    if c = '$' then
      match rest with
      | [] => ['$']
      | d :: rest2 =>
        if d = '$' then '$' :: expandRepl matched bef aft rest2
        else if d = '&' then matched ++ expandRepl matched bef aft rest2
        else if d = Char.ofNat 96 then bef ++ expandRepl matched bef aft rest2
        else if d = Char.ofNat 39 then aft ++ expandRepl matched bef aft rest2
        -- `d` cannot start an escape itself (it is not a dollar), so it
        -- is emitted literally and scanning resumes after it
        else c :: d :: expandRepl matched bef aft rest2
    else c :: expandRepl matched bef aft rest

/-- A replacement string with no dollar sign is copied verbatim. -/
theorem expandRepl_no_dollar (matched bef aft : List Char) :
    ∀ repl : List Char, ('$' ∈ repl → False) →
      expandRepl matched bef aft repl = repl := by
  intro repl
  induction repl with
  | nil => intro _; rfl
  | cons c rest ih =>
    intro h
    have hc : ¬c = '$' := fun hc => h (hc ▸ List.mem_cons_self c rest)
    cases rest with
    | nil => simp [expandRepl, hc]
    | cons d rest2 =>
      simp only [expandRepl, if_neg hc]
      rw [ih (fun hm => h (List.mem_cons_of_mem c hm))]

/-- One pass of `replace(..., 'g')`: `pos` is the absolute position of
`rem` inside the original string `orig`. -/
def jsReplaceGo (pat repl orig : List Char) : Nat → List Char → Nat → List Char
  | _, rem, 0 => rem
  | pos, rem, fuel + 1 =>
    if pat.isEmpty then rem
    else
      match splitFirst pat rem with
      | none => rem
      | some (a, b) =>
        a ++ expandRepl pat (orig.take (pos + a.length))
              (orig.drop (pos + a.length + pat.length)) repl
          ++ jsReplaceGo pat repl orig (pos + a.length + pat.length) b fuel

/-- `s.replace(new RegExp(pat, 'g'), repl)` for a literal pattern. -/
def jsReplaceAll (pat repl s : List Char) : List Char :=
  jsReplaceGo pat repl s 0 s s.length

/-- The maximal decomposition of `s` along leftmost non-overlapping
occurrences of `pat`: the returned chunks, interleaved with `pat`,
reconstruct `s`, and no chunk contains an occurrence of `pat`. -/
def splitChunksGo (pat : List Char) : List Char → Nat → List (List Char)
  | rem, 0 => [rem]
  | rem, fuel + 1 =>
    if pat.isEmpty then [rem]
    else
      match splitFirst pat rem with
      | none => [rem]
      | some (a, b) => a :: splitChunksGo pat b fuel

def splitChunks (pat s : List Char) : List (List Char) :=
  splitChunksGo pat s s.length

theorem splitChunksGo_fuel (pat : List Char) (hp : ¬pat.isEmpty = true) :
    ∀ fuel fuel2 rem, rem.length ≤ fuel → rem.length ≤ fuel2 →
      splitChunksGo pat rem fuel = splitChunksGo pat rem fuel2 := by
  intro fuel
  induction fuel with
  | zero =>
    intro fuel2 rem h1 _
    have : rem = [] := List.length_eq_zero.mp (Nat.le_zero.mp h1)
    subst this
    cases fuel2 with
    | zero => rfl
    | succ f2 =>
      simp only [splitChunksGo, if_neg hp]
      cases hsf : splitFirst pat [] with
      | none => rfl
      | some p =>
        obtain ⟨a, b⟩ := p
        have := splitFirst_eq_append hsf
        cases pat with
        | nil => simp at hp
        | cons x xs => simp at this
  | succ f ih =>
    intro fuel2 rem h1 h2
    cases fuel2 with
    | zero =>
      have : rem = [] := List.length_eq_zero.mp (Nat.le_zero.mp h2)
      subst this
      simp only [splitChunksGo, if_neg hp]
      cases hsf : splitFirst pat [] with
      | none => rfl
      | some p =>
        obtain ⟨a, b⟩ := p
        have := splitFirst_eq_append hsf
        cases pat with
        | nil => simp at hp
        | cons x xs => simp at this
    | succ f2 =>
      cases hsf : splitFirst pat rem with
      | none => simp only [splitChunksGo, if_neg hp, hsf]
      | some p =>
        obtain ⟨a, b⟩ := p
        have hne : pat ≠ [] := fun hnil => hp (by simp [hnil])
        have hlt := splitFirst_some_length hne hsf
        simp only [splitChunksGo, if_neg hp, hsf]
        rw [ih f2 b (by omega) (by omega)]

theorem splitFirst_nil_of_ne (pat : List Char) (hp : pat ≠ []) :
    splitFirst pat [] = none := by
  simp only [splitFirst]
  rw [if_neg]
  intro hcontra
  obtain ⟨t, ht⟩ := (leadsWith_iff pat []).mp hcontra
  cases pat with
  | nil => exact hp rfl
  | cons x xs => simp at ht

/-- Interleave a list of chunks with a separator (specification-side
joining function used to characterise global replacement). -/
def joinWith (sep : List Char) : List (List Char) → List Char
  | [] => []
  | [c] => c
  | c :: c2 :: cs => c ++ sep ++ joinWith sep (c2 :: cs)

theorem splitChunksGo_ne_nil (pat rem : List Char) (fuel : Nat) :
    splitChunksGo pat rem fuel ≠ [] := by
  cases fuel with
  | zero => simp [splitChunksGo]
  | succ f =>
    simp only [splitChunksGo]
    split
    · simp
    · cases hsf : splitFirst pat rem with
      | none => simp
      | some p => obtain ⟨a, b⟩ := p; simp

theorem joinWith_cons_of_ne_nil (sep c : List Char) {l : List (List Char)}
    (h : l ≠ []) : joinWith sep (c :: l) = c ++ sep ++ joinWith sep l := by
  cases l with
  | nil => exact absurd rfl h
  | cons c2 cs => rfl

/-- The chunks interleaved with the pattern reconstruct the input:
`splitChunksGo` removes exactly the leftmost non-overlapping
occurrences of the pattern. -/
theorem splitChunksGo_reconstruct (pat : List Char) (hp : ¬pat.isEmpty = true) :
    ∀ fuel rem, rem.length ≤ fuel →
      joinWith pat (splitChunksGo pat rem fuel) = rem := by
  intro fuel
  induction fuel with
  | zero =>
    intro rem h1
    have : rem = [] := List.length_eq_zero.mp (Nat.le_zero.mp h1)
    subst this
    rfl
  | succ f ih =>
    intro rem h1
    have hne : pat ≠ [] := fun hnil => hp (by simp [hnil])
    cases hsf : splitFirst pat rem with
    | none => simp only [splitChunksGo, if_neg hp, hsf]; rfl
    | some p =>
      obtain ⟨a, b⟩ := p
      have hlt := splitFirst_some_length hne hsf
      simp only [splitChunksGo, if_neg hp, hsf]
      rw [joinWith_cons_of_ne_nil pat a (splitChunksGo_ne_nil pat b f)]
      rw [ih b (by omega)]
      exact (splitFirst_eq_append hsf).symm

/-- No chunk contains an occurrence of the pattern. -/
theorem splitChunksGo_chunk_free (pat : List Char) (hp : ¬pat.isEmpty = true) :
    ∀ fuel rem, rem.length ≤ fuel →
      ∀ c ∈ splitChunksGo pat rem fuel, splitFirst pat c = none := by
  intro fuel
  have hne : pat ≠ [] := fun hnil => hp (by simp [hnil])
  induction fuel with
  | zero =>
    intro rem h1 c hc
    have : rem = [] := List.length_eq_zero.mp (Nat.le_zero.mp h1)
    subst this
    simp [splitChunksGo] at hc
    subst hc
    exact splitFirst_nil_of_ne pat hne
  | succ f ih =>
    intro rem h1 c hc
    cases hsf : splitFirst pat rem with
    | none =>
      simp only [splitChunksGo, if_neg hp, hsf, List.mem_singleton] at hc
      subst hc
      exact hsf
    | some p =>
      obtain ⟨a, b⟩ := p
      have hlt := splitFirst_some_length hne hsf
      simp only [splitChunksGo, if_neg hp, hsf, List.mem_cons] at hc
      rcases hc with rfl | hc
      · exact splitFirst_before_none hne hsf
      · exact ih b (by omega) c hc

/-- For a replacement string free of dollar signs, the JavaScript
global replacement is exactly: split off the leftmost non-overlapping
occurrences of the pattern and re-join the chunks with the replacement. -/
theorem jsReplaceGo_eq_joinWith (pat repl orig : List Char)
    (hp : ¬pat.isEmpty = true) (hd : '$' ∈ repl → False) :
    ∀ fuel pos rem, rem.length ≤ fuel →
      jsReplaceGo pat repl orig pos rem fuel
        = joinWith repl (splitChunksGo pat rem fuel) := by
  intro fuel
  have hne : pat ≠ [] := fun hnil => hp (by simp [hnil])
  induction fuel with
  | zero =>
    intro pos rem h1
    have : rem = [] := List.length_eq_zero.mp (Nat.le_zero.mp h1)
    subst this
    rfl
  | succ f ih =>
    intro pos rem h1
    cases hsf : splitFirst pat rem with
    | none => simp only [jsReplaceGo, splitChunksGo, if_neg hp, hsf]; rfl
    | some p =>
      obtain ⟨a, b⟩ := p
      have hlt := splitFirst_some_length hne hsf
      simp only [jsReplaceGo, splitChunksGo, if_neg hp, hsf]
      rw [joinWith_cons_of_ne_nil repl a (splitChunksGo_ne_nil pat b f)]
      rw [ih (pos + a.length + pat.length) b (by omega)]
      rw [expandRepl_no_dollar _ _ _ repl hd]

theorem jsReplaceAll_eq_joinWith (pat repl s : List Char)
    (hp : ¬pat.isEmpty = true) (hd : '$' ∈ repl → False) :
    jsReplaceAll pat repl s = joinWith repl (splitChunks pat s) :=
  jsReplaceGo_eq_joinWith pat repl s hp hd s.length 0 s (Nat.le_refl _)

theorem splitChunks_reconstruct (pat s : List Char) (hp : ¬pat.isEmpty = true) :
    joinWith pat (splitChunks pat s) = s :=
  splitChunksGo_reconstruct pat hp s.length s (Nat.le_refl _)

theorem splitChunks_chunk_free (pat s : List Char) (hp : ¬pat.isEmpty = true) :
    ∀ c ∈ splitChunks pat s, splitFirst pat c = none :=
  splitChunksGo_chunk_free pat hp s.length s (Nat.le_refl _)

/-- If the pattern does not occur at all, replacement is the identity. -/
theorem jsReplaceAll_of_no_occurrence (pat repl s : List Char)
    (h : splitFirst pat s = none) : jsReplaceAll pat repl s = s := by
  unfold jsReplaceAll
  cases hl : s.length with
  | zero => rfl
  | succ n =>
    simp only [jsReplaceGo]
    split
    · rfl
    · rw [h]

/-! ## Recipient address validation (email-service.ts, utils.ts)

`EmailService.validateEmail` tests the anchored pattern
`[a-zA-Z0-9.!#$%&...+...~-]+ "@" label ("." label)*` where a label is
one to sixty-three characters of letters, digits and hyphens whose
first and last character is a letter or digit.  Since neither character
class contains `@`, and labels contain no dot, the regex match is
equivalent to the split-based check below. -/

def isAsciiAlnum (c : Char) : Bool := c.isAlpha || c.isDigit

/-- The special characters allowed in the local part, exactly the ones
listed in the source character class. -/
def localSpecials : List Char :=
  ['.', '!', '#', '$', '%', '&', Char.ofNat 39, '*', '+', '/', '=', '?',
   '^', '_', Char.ofNat 96, Char.ofNat 123, '|', Char.ofNat 125, '~', '-']

def isLocalChar (c : Char) : Bool := isAsciiAlnum c || localSpecials.contains c

def isLabelChar (c : Char) : Bool := isAsciiAlnum c || c = '-'

/-- `[a-zA-Z0-9](?:[a-zA-Z0-9-]\x7b0,61\x7d[a-zA-Z0-9])?` -/
def isLabel (l : List Char) : Bool :=
  match l with
  | [] => false
  | c :: rest =>
    isAsciiAlnum c && l.length ≤ 63 && rest.all isLabelChar &&
      (match rest.getLast? with
       | none => true
       | some d => isAsciiAlnum d)

def splitOnChar (sep : Char) : List Char → List (List Char)
  | [] => [[]]
  | c :: rest =>
    let r := splitOnChar sep rest
    if c = sep then [] :: r
    else
      match r with
      | [] => [[c]]
      | h :: t => (c :: h) :: t

/-- `EmailService.validateEmail` (the same regex also appears as the
free function `validateEmail` in utils.ts and as `emailRegex` in the
contact route). -/
def validateEmail (email : String) : Bool :=
  match splitOnChar '@' email.toList with
  | [lp, dom] => !lp.isEmpty && lp.all isLocalChar && (splitOnChar '.' dom).all isLabel
  | _ => false

/-- `EmailService.validateEmails`: the source wraps a single string
into a one-element array and then requires `every(validateEmail)`, so a
plain list of recipients is the faithful domain. -/
def validateEmails (emails : List String) : Bool := emails.all validateEmail

example : validateEmail "user.name+tag@mail.example-site.com" = true := by decide
example : validateEmail "USER@EXAMPLE.COM" = true := by decide
example : validateEmail "user@@example.com" = false := by decide
example : validateEmail "user@-example.com" = false := by decide
example : validateEmail "user@example..com" = false := by decide
example : validateEmail "not-an-email" = false := by decide
example : validateEmail " user@example.com" = false := by decide

/-! ## Template rendering (email-templates.ts) -/

/-- A template holds an HTML source and a text source; both are
immutable constructor arguments in the source class. -/
structure EmailTemplate where
  htmlTemplate : String
  textTemplate : String

structure RenderedTemplate where
  html : String
  text : String
deriving DecidableEq

/-- The values a `Record<string, any>` of template data takes at the
repository's call sites, with `String(value)` coercion. -/
inductive TValue where
  | str (s : String)
  | num (n : Int)
  | boolean (b : Bool)

def TValue.display : TValue → String
  | .str s => s
  | .num n => toString n
  | .boolean b => if b then "true" else "false"

/-- The literal placeholder text `\x7b\x7bkey\x7d\x7d`. -/
def placeholder (key : String) : List Char :=
  Char.ofNat 123 :: Char.ofNat 123 :: (key.toList ++ [Char.ofNat 125, Char.ofNat 125])

/-- One `forEach` step of `render`:
`html.replace(new RegExp("\x7b\x7b" + key + "\x7d\x7d", 'g'), String(value))`. -/
def substituteKey (key : String) (value : TValue) (s : String) : String :=
  String.mk (jsReplaceAll (placeholder key) value.display.toList s.toList)

/-- `EmailTemplate.render`: folds the substitution over the data
entries in order, starting from the two source strings.  The template
itself is taken by value and returned untouched; the rendered pair is a
fresh record, so immutability of the template is inherent in the
embedding. -/
def EmailTemplate.render (t : EmailTemplate) (data : List (String × TValue)) :
    RenderedTemplate :=
  let p := data.foldl
    (fun acc kv => (substituteKey kv.1 kv.2 acc.1, substituteKey kv.1 kv.2 acc.2))
    (t.htmlTemplate, t.textTemplate)
  ⟨p.1, p.2⟩

/-! ## Send with retry (email-service.ts) -/

def maxRetries : Nat := 3

/-- Fixed backoff in milliseconds. -/
def retryDelay : Nat := 1000

/-- Observable trace of one `sendWithRetry` call tree: the propagated
result, the number of `transporter.sendMail` invocations, the number of
logged `Retrying email send` messages, and the total time spent in the
fixed-delay waits. -/
structure SendTrace where
  result : Except String Bool
  attempts : Nat
  retryLogs : Nat
  delayMs : Nat

/-- The body of `sendWithRetry`.  The source guards recursion by
`retries < this.maxRetries` and every recursive call passes
`retries + 1`, so the countdown `remaining = maxRetries - retries`
expresses the same control flow structurally.  `tb` is the transporter:
`none` when `this.transporter` is null (the throw before `sendMail`),
otherwise the success/failure outcome of `sendMail` per attempt index. -/
def sendWithRetryGo (tb : Option (Nat → Bool)) (retries : Nat) : Nat → SendTrace
  | 0 =>
    match tb with
    | none => ⟨Except.error "Email transporter not initialized", 0, 0, 0⟩
    | some f =>
      if f retries then ⟨Except.ok true, 1, 0, 0⟩
      else ⟨Except.error "transport send failed", 1, 0, 0⟩
  | remaining + 1 =>
    match tb with
    | none =>
      let t := sendWithRetryGo none (retries + 1) remaining
      ⟨t.result, t.attempts, t.retryLogs + 1, t.delayMs + retryDelay⟩
    | some f =>
      if f retries then ⟨Except.ok true, 1, 0, 0⟩
      else
        let t := sendWithRetryGo (some f) (retries + 1) remaining
        ⟨t.result, t.attempts + 1, t.retryLogs + 1, t.delayMs + retryDelay⟩

def sendWithRetry (tb : Option (Nat → Bool)) (retries : Nat) : SendTrace :=
  sendWithRetryGo tb retries (maxRetries - retries)

/-! ## sendEmail (email-service.ts) -/

/-- The `EmailOptions` interface.  `to` is `string | string[]`; the
source immediately normalises it to an array, so a list is the faithful
domain.  The `to` and `from` fields are called `recipients` and
`fromAddr` (both names are reserved tokens in Lean). -/
structure EmailOptions where
  recipients : List String
  subject : String
  text : Option String := none
  html : Option String := none
  fromAddr : Option String := none
  replyTo : Option String := none
  template : Option EmailTemplate := none
  templateData : Option (List (String × TValue)) := none

/-- Observable outcome of one `sendEmail` call: the boolean return
value, the number of transport `sendMail` invocations, and whether the
development/unconfigured simulation branch ran (`console.log` of the
would-be email). -/
structure SendOutcome where
  result : Bool
  transportAttempts : Nat
  simulated : Bool
deriving DecidableEq

/-- `EmailService.sendEmail`.  Control flow from the source: invalid
recipient addresses throw, caught by the surrounding try/catch which
logs and returns false; in development mode or when the service is
unconfigured the email is logged and `true` returned without touching
any transport; otherwise the message is handed to `sendWithRetry`, and
any propagated error is caught and converted to `false`.  The
construction of the mailOptions record (template rendering, HTML
sanitization, header synthesis) is consumed only by the abstracted
transport `tb` and does not influence the returned outcome, so it is
elided here. -/
def sendEmail (nodeEnv : String) (configured : Bool) (tb : Option (Nat → Bool))
    (options : EmailOptions) : SendOutcome :=
  if !validateEmails options.recipients then ⟨false, 0, false⟩
  else if nodeEnv = "development" || !configured then ⟨true, 0, true⟩
  else
    let t := sendWithRetry tb 0
    match t.result with
    | Except.ok b => ⟨b, t.attempts, false⟩
    | Except.error _ => ⟨false, t.attempts, false⟩

/-! ## Service configuration (email-service.ts constructor) -/

/-- The environment variables the constructor reads. -/
structure Env where
  smtpHost : Option String
  smtpUser : Option String
  smtpPassword : Option String
  smtpFrom : Option String
  smtpPort : Option String
  nodeEnv : String

/-- JavaScript truthiness of `process.env.X`: absent and empty-string
values are falsy. -/
def envTruthy : Option String → Bool
  | none => false
  | some s => !s.isEmpty

/-- `initializeTransporter` sets `isConfigured = false` and returns
early when `SMTP_HOST`, `SMTP_USER` or `SMTP_PASSWORD` is falsy, and
sets it to true after creating the transporter otherwise
(`createTransport` itself is library code assumed not to throw). -/
def serviceConfigured (env : Env) : Bool :=
  envTruthy env.smtpHost && envTruthy env.smtpUser && envTruthy env.smtpPassword

/-! ## Sanitizer (utils.ts `sanitizeHtml` configuration)

The DOMPurify engine itself is an external library ("used, not built"
per the spec) and its code is not part of this repository; only the
whitelist configuration in `src/lib/utils.ts` is.  Following the spec's
description of the component (whitelist-based tag filter, attribute
whitelist, URI-scheme allowlist, disallowed constructs stripped with
text content preserved, `script` fully removed), the sanitizer is
modelled on parsed HTML node trees; parsing and re-serialisation of the
string form belong to the external library. -/

/-- A parsed HTML fragment node. -/
inductive HNode where
  | text (s : String)
  | elem (tag : String) (attrs : List (String × String)) (children : List HNode)

/-- ALLOWED_TAGS from utils.ts. -/
def allowedTags : List String :=
  ["a", "b", "br", "div", "em", "h1", "h2", "h3", "h4", "h5", "h6",
   "i", "li", "ol", "p", "span", "strong", "table", "tbody", "td",
   "tfoot", "th", "thead", "tr", "ul"]

/-- ALLOWED_ATTR (plus ADD_ATTR `target`, already in the list). -/
def allowedAttrs : List String := ["href", "target", "rel", "style", "class"]

/-- FORBID_TAGS from utils.ts. -/
def forbidTags : List String := ["script", "style", "iframe", "form", "input", "button"]

/-- FORBID_ATTR from utils.ts. -/
def forbidAttrs : List String := ["onerror", "onload", "onclick"]

/-- Tags whose text content is dropped along with the tag itself:
script and style bodies are code, not document text ("`<script>` tags
are always fully removed"). -/
def removedWithContent : List String := ["script", "style"]

/-- ALLOWED_URI_REGEXP from utils.ts, an anchored case-insensitive
prefix test: an allowlisted scheme followed by a colon, or a first
character that is not a letter, or a run of scheme characters that is
not terminated by a colon. -/
def isLowerAZ (c : Char) : Bool := 'a' ≤ c && c ≤ 'z'

def isSchemeChar (c : Char) : Bool := isLowerAZ c || c = '+' || c = '.' || c = '-'

def allowedSchemes : List String :=
  ["ftp", "ftps", "http", "https", "mailto", "tel", "callto", "sms", "maps"]

def uriAllowed (v : String) : Bool :=
  let cs := v.toList.map Char.toLower
  allowedSchemes.any (fun sc => leadsWith (sc.toList ++ [':']) cs)
  || (match cs with
      | [] => false
      | c :: _ => !isLowerAZ c)
  || (let run := cs.takeWhile isSchemeChar
      !run.isEmpty &&
        (match cs.drop run.length with
         | [] => true
         | c :: _ => c ≠ ':'))

/-- An attribute survives when its name is allowlisted, not forbidden,
and an `href` value passes the URI allowlist. -/
def keepAttr (p : String × String) : Bool :=
  allowedAttrs.contains p.1 && !forbidAttrs.contains p.1 &&
    (p.1 ≠ "href" || uriAllowed p.2)

def filterAttrs (attrs : List (String × String)) : List (String × String) :=
  attrs.filter keepAttr

/-- Modelled from the spec: the DOMPurify sanitation pass over a parsed
fragment, under the utils.ts configuration (the DOMPurify implementation
is the part missing from the repository).  Allowed elements are kept
with filtered attributes and sanitized children; script/style elements
are removed together with their content; any other disallowed element
is stripped but its (sanitized) children are preserved in place
(KEEP_CONTENT). -/
def sanitizeNodes : List HNode → List HNode
  | [] => []
  | HNode.text s :: rest => HNode.text s :: sanitizeNodes rest
  | HNode.elem tag attrs kids :: rest =>
    if forbidTags.contains tag then
      if removedWithContent.contains tag then sanitizeNodes rest
      else sanitizeNodes kids ++ sanitizeNodes rest
    else if allowedTags.contains tag then
      HNode.elem tag (filterAttrs attrs) (sanitizeNodes kids) :: sanitizeNodes rest
    else sanitizeNodes kids ++ sanitizeNodes rest

/-- A fragment is clean when every element bears an allowlisted tag,
only surviving attributes, and clean children. -/
def cleanNodes : List HNode → Bool
  | [] => true
  | HNode.text _ :: rest => cleanNodes rest
  | HNode.elem tag attrs kids :: rest =>
    allowedTags.contains tag && attrs.all keepAttr && cleanNodes kids && cleanNodes rest

/-- Does any element with the given tag occur anywhere in the fragment? -/
def hasTag (t : String) : List HNode → Bool
  | [] => false
  | HNode.text _ :: rest => hasTag t rest
  | HNode.elem tag _ kids :: rest => tag = t || hasTag t kids || hasTag t rest

theorem filterAttrs_all (attrs : List (String × String)) :
    (filterAttrs attrs).all keepAttr = true :=
  List.all_eq_true.mpr fun _a ha => (List.mem_filter.mp ha).2

theorem filterAttrs_of_all {attrs : List (String × String)}
    (h : attrs.all keepAttr = true) : filterAttrs attrs = attrs :=
  List.filter_eq_self.mpr fun a ha => List.all_eq_true.mp h a ha

theorem allowed_not_forbid {t : String} (h : allowedTags.contains t = true) :
    t ∉ forbidTags := by
  intro hm
  have hmem : t ∈ allowedTags := List.mem_of_elem_eq_true h
  have hall : allowedTags.all (fun x => !(forbidTags.contains x)) = true := by decide
  have hx := List.all_eq_true.mp hall t hmem
  have hcont : forbidTags.contains t = true := List.elem_eq_true_of_mem hm
  rw [hcont] at hx
  cases hx

theorem sanitizeNodes_append (a b : List HNode) :
    sanitizeNodes (a ++ b) = sanitizeNodes a ++ sanitizeNodes b := by
  induction a with
  | nil => simp [sanitizeNodes]
  | cons n rest ih =>
    cases n with
    | text s => simp [sanitizeNodes, ih]
    | elem tag attrs kids =>
      simp only [List.cons_append, sanitizeNodes, ih]
      by_cases h1 : tag ∈ forbidTags
      · by_cases h2 : tag ∈ removedWithContent
        · simp [h1, h2]
        · simp [h1, h2, List.append_assoc]
      · by_cases h3 : tag ∈ allowedTags
        · simp [h1, h3]
        · simp [h1, h3, List.append_assoc]

theorem cleanNodes_append (a b : List HNode) :
    cleanNodes (a ++ b) = (cleanNodes a && cleanNodes b) := by
  induction a with
  | nil => simp [cleanNodes]
  | cons n rest ih =>
    cases n with
    | text s => simp [cleanNodes, ih]
    | elem tag attrs kids =>
      simp [cleanNodes, ih, Bool.and_assoc]

/-- Sanitized output is clean: every surviving element is allowlisted
with surviving attributes and clean children. -/
theorem cleanNodes_sanitizeNodes (l : List HNode) :
    cleanNodes (sanitizeNodes l) = true := by
  induction l using sanitizeNodes.induct with
  | case1 => simp [sanitizeNodes, cleanNodes]
  | case2 s rest ih => simpa [sanitizeNodes, cleanNodes] using ih
  | case3 tag attrs kids rest h1 h2 ih =>
    have m1 : tag ∈ forbidTags := List.mem_of_elem_eq_true h1
    have m2 : tag ∈ removedWithContent := List.mem_of_elem_eq_true h2
    simpa [sanitizeNodes, m1, m2] using ih
  | case4 tag attrs kids rest h1 h2 ih1 ih2 =>
    have m1 : tag ∈ forbidTags := List.mem_of_elem_eq_true h1
    have m2 : tag ∉ removedWithContent := fun hm => h2 (List.elem_eq_true_of_mem hm)
    simp [sanitizeNodes, m1, m2, cleanNodes_append, ih1, ih2]
  | case5 tag attrs kids rest h1 h3 ih1 ih2 =>
    have m1 : tag ∉ forbidTags := fun hm => h1 (List.elem_eq_true_of_mem hm)
    have m3 : tag ∈ allowedTags := List.mem_of_elem_eq_true h3
    simp [sanitizeNodes, m1, m3, cleanNodes, ih1, ih2, filterAttrs_all,
      List.elem_eq_true_of_mem m3]
  | case6 tag attrs kids rest h1 h3 ih1 ih2 =>
    have m1 : tag ∉ forbidTags := fun hm => h1 (List.elem_eq_true_of_mem hm)
    have m3 : tag ∉ allowedTags := fun hm => h3 (List.elem_eq_true_of_mem hm)
    simp [sanitizeNodes, m1, m3, cleanNodes_append, ih1, ih2]

/-- Clean fragments are fixed points of the sanitizer. -/
theorem sanitizeNodes_of_clean :
    ∀ l : List HNode, cleanNodes l = true → sanitizeNodes l = l := by
  intro l
  induction l using cleanNodes.induct with
  | case1 => intro _; simp [sanitizeNodes]
  | case2 s rest ih =>
    intro h
    simp only [cleanNodes] at h
    simp [sanitizeNodes, ih h]
  | case3 tag attrs kids rest ih1 ih2 =>
    intro h
    simp only [cleanNodes, Bool.and_eq_true] at h
    obtain ⟨⟨⟨ha, hattrs⟩, hkids⟩, hrest⟩ := h
    have m3 : tag ∈ allowedTags := List.mem_of_elem_eq_true ha
    have hnf : tag ∉ forbidTags := allowed_not_forbid ha
    simp [sanitizeNodes, hnf, m3, filterAttrs_of_all hattrs, ih1 hkids, ih2 hrest]

/-- Clean fragments contain no script element. -/
theorem no_script_of_clean :
    ∀ l : List HNode, cleanNodes l = true → hasTag "script" l = false := by
  intro l
  induction l using cleanNodes.induct with
  | case1 => intro _; simp [hasTag]
  | case2 s rest ih =>
    intro h
    simp only [cleanNodes] at h
    simp [hasTag, ih h]
  | case3 tag attrs kids rest ih1 ih2 =>
    intro h
    simp only [cleanNodes, Bool.and_eq_true] at h
    obtain ⟨⟨⟨ha, hattrs⟩, hkids⟩, hrest⟩ := h
    have htag : ¬tag = "script" := by
      intro hcontra
      subst hcontra
      have hfalse : allowedTags.contains "script" = false := by decide
      rw [hfalse] at ha
      cases ha
    simp [hasTag, htag, ih1 hkids, ih2 hrest]

/-! ## Route handler payloads and schemas

The JSON (or multipart-field) values reaching `safeParse` are either
strings or something else; every field of the three schemas starts with
`z.string()` (or `z.enum`, which also requires a string), so
non-strings only ever fail.  `none` is an absent field (`undefined`).
zod's built-in `.email()` and `.datetime()` validators are library
internals and are abstracted as boolean parameters; the explicit
`.regex` patterns written in the route files are embedded exactly. -/

inductive JVal where
  | jstr (s : String)
  | jother

def getStr : Option JVal → String
  | some (JVal.jstr s) => s
  | _ => ""

def getOptStr : Option JVal → Option String
  | some (JVal.jstr s) => some s
  | _ => none

/-- `z.string().min(n)` -/
def isStrMin (n : Nat) : Option JVal → Bool
  | some (JVal.jstr s) => n ≤ s.length
  | _ => false

/-- `z.string().min(lo).max(hi)` -/
def isStrBetween (lo hi : Nat) : Option JVal → Bool
  | some (JVal.jstr s) => lo ≤ s.length && s.length ≤ hi
  | _ => false

/-- `z.enum([...])` -/
def isEnumField (options : List String) : Option JVal → Bool
  | some (JVal.jstr s) => options.contains s
  | _ => false

/-- `z.string().max(0).optional()`: absent, or a string of length 0. -/
def honeypotOk : Option JVal → Bool
  | none => true
  | some (JVal.jstr s) => s.length ≤ 0
  | some JVal.jother => false

/-- `z.string().email(...)` with zod's internal email check abstracted. -/
def emailFieldOk (zodEmail : String → Bool) : Option JVal → Bool
  | some (JVal.jstr s) => zodEmail s
  | _ => false

/-- `z.string().datetime().optional()` with zod's check abstracted. -/
def optDatetimeOk (zodDatetime : String → Bool) : Option JVal → Bool
  | none => true
  | some (JVal.jstr s) => zodDatetime s
  | some JVal.jother => false

/-- JavaScript whitespace as used by `\s`, `trim()` (ASCII range). -/
def isJsWs (c : Char) : Bool :=
  c = ' ' || c = '\t' || c = '\n' || c = '\r' || c = Char.ofNat 11 || c = Char.ofNat 12

def trimStr (s : String) : String :=
  String.mk (((s.toList.dropWhile isJsWs).reverse.dropWhile isJsWs).reverse)

def lowerStr (s : String) : String :=
  String.mk (s.toList.map Char.toLower)

/-- Contact-route name check: `min(2)` and `^[a-zA-Z\s]*$`. -/
def contactNameOk : Option JVal → Bool
  | some (JVal.jstr s) => 2 ≤ s.length && s.toList.all (fun c => c.isAlpha || isJsWs c)
  | _ => false

/-- Contact-route email check: zod `.email()` and the explicit strict
`emailRegex` (the same pattern embedded above as `validateEmail`). -/
def contactEmailOk (zodEmail : String → Bool) : Option JVal → Bool
  | some (JVal.jstr s) => zodEmail s && validateEmail s
  | _ => false

/-- `\+?[1-9]\d\x7b1,14\x7d$` is anchored only at the end, so
`regex.test` succeeds when any suffix of the input matches it fully. -/
def isDigit19 (c : Char) : Bool := '1' ≤ c && c ≤ '9'

def phoneCore : List Char → Bool
  | [] => false
  | c :: rest => isDigit19 c && rest.all Char.isDigit && 1 ≤ rest.length && rest.length ≤ 14

def phoneMatch : List Char → Bool
  | '+' :: r => phoneCore r
  | t => phoneCore t

def phoneOk (s : String) : Bool := s.toList.tails.any phoneMatch

def phoneFieldOk : Option JVal → Bool
  | some (JVal.jstr s) => phoneOk s
  | _ => false

example : phoneOk "+2348012345678" = true := by decide
example : phoneOk "0012" = true := by decide
example : phoneOk "abc+12" = true := by decide
example : phoneOk "+0" = false := by decide

/-- `industry` choices of the consultation schema. -/
def industries : List String :=
  ["Technology", "Finance", "Healthcare", "Retail", "Manufacturing", "Other"]

def companySizes : List String := ["1-10", "11-50", "51-200", "201-500", "500+"]

def consultationTypes : List String :=
  ["Business Strategy", "Digital Transformation", "Performance Optimization",
   "Market Analysis", "Innovation Consulting"]

/-- Raw JSON body of the consultation-booking request. -/
structure RawConsultation where
  name : Option JVal
  email : Option JVal
  company : Option JVal
  industry : Option JVal
  companySize : Option JVal
  consultationType : Option JVal
  message : Option JVal
  preferredDate : Option JVal
  honeypot : Option JVal

/-- `consultationSchema.safeParse` success value: every field is passed
through unchanged (the consultation schema declares no transforms). -/
structure ConsultationData where
  name : String
  email : String
  company : String
  industry : String
  companySize : String
  consultationType : String
  message : String
  preferredDate : String
  honeypot : Option String

def parseConsultation (zodEmail : String → Bool) (r : RawConsultation) :
    Option ConsultationData :=
  if isStrMin 2 r.name && emailFieldOk zodEmail r.email && isStrMin 2 r.company
      && isEnumField industries r.industry && isEnumField companySizes r.companySize
      && isEnumField consultationTypes r.consultationType && isStrMin 10 r.message
      && isStrMin 1 r.preferredDate && honeypotOk r.honeypot then
    some ⟨getStr r.name, getStr r.email, getStr r.company, getStr r.industry,
          getStr r.companySize, getStr r.consultationType, getStr r.message,
          getStr r.preferredDate, getOptStr r.honeypot⟩
  else none

/-- Raw multipart fields of the application request (the `formidable`
parse that produces them is library code; file handling does not feed
back into validation or the email result). -/
structure RawApplication where
  name : Option JVal
  email : Option JVal
  phone : Option JVal
  message : Option JVal
  honeypot : Option JVal

structure ApplicationData where
  name : String
  email : String
  phone : String
  message : String
  honeypot : Option String

def parseApplication (zodEmail : String → Bool) (r : RawApplication) :
    Option ApplicationData :=
  if isStrMin 2 r.name && emailFieldOk zodEmail r.email && phoneFieldOk r.phone
      && isStrMin 10 r.message && honeypotOk r.honeypot then
    some ⟨getStr r.name, getStr r.email, getStr r.phone, getStr r.message,
          getOptStr r.honeypot⟩
  else none

/-- Raw JSON body of the contact request. -/
structure RawContact where
  name : Option JVal
  email : Option JVal
  message : Option JVal
  timestamp : Option JVal
  honeypot : Option JVal

structure ContactData where
  name : String
  email : String
  message : String
  timestamp : Option String
  honeypot : Option String

/-- `contactSchema.safeParse`: validation checks run on the raw field
values; the `.transform` steps (trim for name and message,
lowercase-then-trim for email) run afterwards, only on success. -/
def parseContact (zodEmail zodDatetime : String → Bool) (r : RawContact) :
    Option ContactData :=
  if contactNameOk r.name && contactEmailOk zodEmail r.email
      && isStrBetween 10 1000 r.message && optDatetimeOk zodDatetime r.timestamp
      && honeypotOk r.honeypot then
    some ⟨trimStr (getStr r.name), trimStr (lowerStr (getStr r.email)),
          trimStr (getStr r.message), getOptStr r.timestamp, getOptStr r.honeypot⟩
  else none

/-! ## Route handlers -/

inductive RespKind where
  | rateLimited
  | validationFailed
  | honeypotRejected
  | serverError
  | success
deriving DecidableEq

/-- Observable response of one handler invocation: HTTP status, which
branch produced it, the user-facing `error`/`message` string of the
JSON body, and the outcome of the `sendEmail` call when one was made. -/
structure HandlerResult where
  status : Nat
  kind : RespKind
  body : String
  emailOutcome : Option SendOutcome
deriving DecidableEq

/-- JavaScript truthiness of `validatedData.honeypot`:
`undefined` and the empty string are falsy. -/
def strTruthy : Option String → Bool
  | none => false
  | some s => !s.isEmpty

/-- POST of `app/api/book-consultation/route.ts`.  `limiterSuccess` is
the rate limiter's verdict; `smtpUser` is `process.env.SMTP_USER!`, the
single recipient handed to `sendEmail`.  The template argument passed in
the source (`consultationBookingTemplate`) is consumed only through the
elided mailOptions body, so it does not appear here. -/
def consultationPOST (limiterSuccess : Bool) (zodEmail : String → Bool)
    (raw : RawConsultation) (nodeEnv : String) (configured : Bool)
    (tb : Option (Nat → Bool)) (smtpUser : String) : HandlerResult :=
  if !limiterSuccess then
    ⟨429, RespKind.rateLimited,
      "Too many requests. Please try again in a few minutes.", none⟩
  else
    match parseConsultation zodEmail raw with
    | none =>
      ⟨400, RespKind.validationFailed, "Please check your input and try again", none⟩
    | some v =>
      if strTruthy v.honeypot then
        ⟨400, RespKind.honeypotRejected, "Form submission rejected", none⟩
      else
        let out := sendEmail nodeEnv configured tb
          ⟨[smtpUser], "New Consultation Request: " ++ v.name ++ " - " ++ v.company,
           none, none, none, none, none, none⟩
        if out.result then
          ⟨200, RespKind.success, "Consultation request submitted successfully", some out⟩
        else
          ⟨500, RespKind.serverError,
            "We're experiencing technical difficulties. Please try again later or contact support directly.",
            some out⟩

/-- POST of `app/api/applications/route.ts` (fields after the
`formidable` multipart parse). -/
def applicationsPOST (limiterSuccess : Bool) (zodEmail : String → Bool)
    (raw : RawApplication) (nodeEnv : String) (configured : Bool)
    (tb : Option (Nat → Bool)) (smtpUser : String) : HandlerResult :=
  if !limiterSuccess then
    ⟨429, RespKind.rateLimited,
      "Too many requests. Please try again in a few minutes.", none⟩
  else
    match parseApplication zodEmail raw with
    | none =>
      ⟨400, RespKind.validationFailed, "Please check your input and try again", none⟩
    | some v =>
      if strTruthy v.honeypot then
        ⟨400, RespKind.honeypotRejected, "Form submission rejected", none⟩
      else
        let out := sendEmail nodeEnv configured tb
          ⟨[smtpUser], "Application Form: " ++ v.name,
           none, none, none, none, none, none⟩
        if out.result then
          ⟨200, RespKind.success, "Application submitted successfully", some out⟩
        else
          ⟨500, RespKind.serverError,
            "We're experiencing technical difficulties. Please try again later or contact support directly.",
            some out⟩

/-! ## Supporting lemmas -/

theorem string_eq_empty_of_length {s : String} (h : s.length = 0) : s = "" := by
  cases s with
  | mk data =>
    cases data with
    | nil => rfl
    | cons c cs => simp [String.length] at h

theorem honeypotOk_false_of_ne {s : String} (hs : ¬s = "") :
    honeypotOk (some (JVal.jstr s)) = false := by
  simp only [honeypotOk, decide_eq_false_iff_not]
  intro hle
  exact hs (string_eq_empty_of_length (Nat.le_zero.mp hle))

theorem honeypotOk_cases {o : Option JVal} (h : honeypotOk o = true) :
    o = none ∨ o = some (JVal.jstr "") := by
  cases o with
  | none => exact Or.inl rfl
  | some j =>
    cases j with
    | jstr s =>
      refine Or.inr ?_
      simp only [honeypotOk, decide_eq_true_eq] at h
      rw [string_eq_empty_of_length (Nat.le_zero.mp h)]
    | jother => simp [honeypotOk] at h

/-- A transporter that fails every attempt: each level makes one
`sendMail` call, logs one retry (until exhaustion) and waits once. -/
theorem sendWithRetryGo_allFail (f : Nat → Bool) (hf : ∀ n, f n = false) :
    ∀ remaining retries, sendWithRetryGo (some f) retries remaining =
      ⟨Except.error "transport send failed", remaining + 1, remaining,
        retryDelay * remaining⟩ := by
  intro remaining
  induction remaining with
  | zero => intro r; simp [sendWithRetryGo, hf]
  | succ m ih =>
    intro r
    simp only [sendWithRetryGo, hf, Bool.false_eq_true, if_false, ih (r + 1)]
    refine congrArg₂ _ rfl ?_
    simp [retryDelay]
    ring

/-- A missing transporter: the thrown initialization error is retried
like any other failure, with no `sendMail` call at any level. -/
theorem sendWithRetryGo_none :
    ∀ remaining retries, sendWithRetryGo none retries remaining =
      ⟨Except.error "Email transporter not initialized", 0, remaining,
        retryDelay * remaining⟩ := by
  intro remaining
  induction remaining with
  | zero => intro r; simp [sendWithRetryGo]
  | succ m ih =>
    intro r
    simp only [sendWithRetryGo, ih (r + 1)]
    refine congrArg₂ _ rfl ?_
    simp [retryDelay]
    ring

/-- The total wait is always the fixed delay times the number of
logged retries. -/
theorem sendWithRetryGo_delay (tb : Option (Nat → Bool)) :
    ∀ remaining retries,
      (sendWithRetryGo tb retries remaining).delayMs
        = retryDelay * (sendWithRetryGo tb retries remaining).retryLogs := by
  intro remaining
  induction remaining with
  | zero =>
    intro r
    cases tb with
    | none => simp [sendWithRetryGo]
    | some f =>
      by_cases hf : f r
      · simp [sendWithRetryGo, hf]
      · simp [sendWithRetryGo, hf]
  | succ m ih =>
    intro r
    cases tb with
    | none =>
      simp only [sendWithRetryGo]
      rw [ih (r + 1)]
      ring
    | some f =>
      by_cases hf : f r
      · simp [sendWithRetryGo, hf]
      · simp only [sendWithRetryGo, hf, Bool.false_eq_true, if_false]
        rw [ih (r + 1)]
        ring

/-- `sendMail` succeeds at this attempt: no retry, one attempt. -/
theorem sendWithRetryGo_succeed (f : Nat → Bool) (r m : Nat) (hf : f r = true) :
    sendWithRetryGo (some f) r m = ⟨Except.ok true, 1, 0, 0⟩ := by
  cases m <;> simp [sendWithRetryGo, hf]

/-- One failing attempt with retries left: recurse at the next attempt
index, counting the attempt, the retry log and the wait. -/
theorem sendWithRetryGo_succ_fail (f : Nat → Bool) (r m : Nat) (hf : f r = false) :
    sendWithRetryGo (some f) r (m + 1)
      = ⟨(sendWithRetryGo (some f) (r + 1) m).result,
         (sendWithRetryGo (some f) (r + 1) m).attempts + 1,
         (sendWithRetryGo (some f) (r + 1) m).retryLogs + 1,
         (sendWithRetryGo (some f) (r + 1) m).delayMs + retryDelay⟩ := by
  simp [sendWithRetryGo, hf]

/-- A transporter failing the first `k` attempts and succeeding at
attempt `k` (with enough retries left) yields `k + 1` attempts, `k`
retry logs and `k` waits. -/
theorem sendWithRetryGo_fail_then_ok (f : Nat → Bool) :
    ∀ k r m : Nat, (∀ i, i < k → f (r + i) = false) → f (r + k) = true → k ≤ m →
      sendWithRetryGo (some f) r m = ⟨Except.ok true, k + 1, k, retryDelay * k⟩ := by
  intro k
  induction k with
  | zero =>
    intro r m _ hk _
    rw [sendWithRetryGo_succeed f r m (by simpa using hk)]
    simp
  | succ j ih =>
    intro r m hfail hk hm
    cases m with
    | zero => omega
    | succ m' =>
      have h0 : f r = false := by simpa using hfail 0 (Nat.succ_pos j)
      rw [sendWithRetryGo_succ_fail f r m' h0]
      rw [ih (r + 1) m' (fun i hi => by
            have := hfail (i + 1) (Nat.succ_lt_succ hi)
            simpa [Nat.add_assoc, Nat.add_comm 1 i] using this)
          (by simpa [Nat.add_assoc, Nat.add_comm 1 j] using hk) (by omega)]
      refine congrArg₂ _ rfl ?_
      simp [retryDelay]
      ring

/-- Schema failure caused by a non-empty honeypot string. -/
theorem parseConsultation_none_of_honeypot {z : String → Bool}
    {raw : RawConsultation} {s : String} (hs : ¬s = "")
    (hraw : raw.honeypot = some (JVal.jstr s)) :
    parseConsultation z raw = none := by
  simp [parseConsultation, hraw, honeypotOk_false_of_ne hs]

theorem parseApplication_none_of_honeypot {z : String → Bool}
    {raw : RawApplication} {s : String} (hs : ¬s = "")
    (hraw : raw.honeypot = some (JVal.jstr s)) :
    parseApplication z raw = none := by
  simp [parseApplication, hraw, honeypotOk_false_of_ne hs]

/-- Any payload accepted by the consultation schema has an absent or
empty honeypot. -/
theorem parseConsultation_honeypot {z : String → Bool} {raw : RawConsultation}
    {v : ConsultationData} (h : parseConsultation z raw = some v) :
    v.honeypot = none ∨ v.honeypot = some "" := by
  rw [parseConsultation] at h
  split at h
  · rename_i hcond
    cases h
    simp only [Bool.and_eq_true] at hcond
    rcases honeypotOk_cases hcond.2 with h0 | h0 <;> simp [h0, getOptStr]
  · cases h

theorem parseApplication_honeypot {z : String → Bool} {raw : RawApplication}
    {v : ApplicationData} (h : parseApplication z raw = some v) :
    v.honeypot = none ∨ v.honeypot = some "" := by
  rw [parseApplication] at h
  split at h
  · rename_i hcond
    cases h
    simp only [Bool.and_eq_true] at hcond
    rcases honeypotOk_cases hcond.2 with h0 | h0 <;> simp [h0, getOptStr]
  · cases h

/-! ## Claims -/

/-- C2: `sendWithRetry` retries with a fixed 1000 ms delay: a transport
failing exactly twice then succeeding gives exactly 3 attempts, two
logged retry messages and overall success; a transport failing always
gives `maxRetries + 1 = 4` attempts and the failure propagates to
`sendEmail`, which returns false; the total wait always equals the
fixed delay times the number of retries. -/
theorem claim_retry_policy :
    (∀ f : Nat → Bool, f 0 = false → f 1 = false → f 2 = true →
        sendWithRetry (some f) 0 = ⟨Except.ok true, 3, 2, 2000⟩) ∧
    (∀ f : Nat → Bool, (∀ n, f n = false) →
        sendWithRetry (some f) 0
          = ⟨Except.error "transport send failed", 4, 3, 3000⟩) ∧
    (∀ (f : Nat → Bool) (nodeEnv : String) (options : EmailOptions),
        (∀ n, f n = false) → validateEmails options.recipients = true →
        ¬nodeEnv = "development" →
        sendEmail nodeEnv true (some f) options = ⟨false, 4, false⟩) ∧
    (∀ (tb : Option (Nat → Bool)) (retries : Nat),
        (sendWithRetry tb retries).delayMs
          = retryDelay * (sendWithRetry tb retries).retryLogs) := by
  refine ⟨?_, ?_, ?_, ?_⟩
  · intro f h0 h1 h2
    have h := sendWithRetryGo_fail_then_ok f 2 0 3
      (by intro i hi; interval_cases i <;> assumption) (by simpa using h2) (by omega)
    rw [sendWithRetry]
    simpa [maxRetries, retryDelay] using h
  · intro f hf
    rw [sendWithRetry]
    have h := sendWithRetryGo_allFail f hf 3 0
    simpa [maxRetries, retryDelay] using h
  · intro f nodeEnv options hf hv hdev
    simp [sendEmail, hv, hdev, sendWithRetry, maxRetries,
      sendWithRetryGo_allFail f hf]
  · intro tb retries
    rw [sendWithRetry]
    exact sendWithRetryGo_delay tb (maxRetries - retries) retries

/-- Witness for C2 at concrete transports: one failing exactly the
first two attempts, one failing always. -/
theorem claim_retry_policy_witness :
    sendWithRetry (some (fun n => decide (2 ≤ n))) 0
      = ⟨Except.ok true, 3, 2, 2000⟩ ∧
    sendWithRetry (some (fun _ => false)) 0
      = ⟨Except.error "transport send failed", 4, 3, 3000⟩ ∧
    sendEmail "production" true (some (fun _ => false))
      ⟨["ops@example.com"], "Email System Test", none, none, none, none, none, none⟩
      = ⟨false, 4, false⟩ := by
  have h := claim_retry_policy
  exact ⟨h.1 _ (by decide) (by decide) (by decide),
         h.2.1 _ (fun n => rfl),
         h.2.2.1 _ "production" _ (fun n => rfl) (by decide) (by decide)⟩

/-- C3: a recipient list containing an address rejected by the strict
pattern makes `sendEmail` return false with no transport attempt (and
no simulation log either). -/
theorem claim_invalid_recipient_no_send (nodeEnv : String) (configured : Bool)
    (tb : Option (Nat → Bool)) (options : EmailOptions)
    (h : ∃ e ∈ options.recipients, validateEmail e = false) :
    sendEmail nodeEnv configured tb options = ⟨false, 0, false⟩ := by
  have hv : validateEmails options.recipients = false := by
    rcases h with ⟨e, he, hve⟩
    rw [validateEmails, List.all_eq_false]
    exact ⟨e, he, by simp [hve]⟩
  simp [sendEmail, hv]

theorem claim_invalid_recipient_no_send_witness :
    sendEmail "production" true (some (fun _ => true))
      ⟨["not-an-email"], "s", none, none, none, none, none, none⟩
      = ⟨false, 0, false⟩ :=
  claim_invalid_recipient_no_send _ _ _ _
    ⟨"not-an-email", by decide, by decide⟩

/-- C4 (amended): when a required SMTP credential is missing the
service is marked unconfigured, and every `sendEmail` call with valid
recipients short-circuits to a log-only success with no transport
contact in every environment — including production, where the claimed
failure path does not exist (see the counterexample). -/
theorem claim_unconfigured_simulation (env : Env)
    (h : envTruthy env.smtpHost = false ∨ envTruthy env.smtpUser = false ∨
         envTruthy env.smtpPassword = false) :
    serviceConfigured env = false ∧
    ∀ (nodeEnv : String) (tb : Option (Nat → Bool)) (options : EmailOptions),
      validateEmails options.recipients = true →
      sendEmail nodeEnv (serviceConfigured env) tb options = ⟨true, 0, true⟩ := by
  have hc : serviceConfigured env = false := by
    rcases h with h | h | h <;> simp [serviceConfigured, h]
  refine ⟨hc, ?_⟩
  intro nodeEnv tb options hv
  rw [hc]
  simp [sendEmail, hv]

theorem claim_unconfigured_simulation_witness :
    serviceConfigured
        ⟨some "smtp.example.com", some "ops@example.com", none, none, none,
         "production"⟩ = false ∧
    sendEmail "production"
      (serviceConfigured
        ⟨some "smtp.example.com", some "ops@example.com", none, none, none,
         "production"⟩) none
      ⟨["ops@example.com"], "t", none, none, none, none, none, none⟩
      = ⟨true, 0, true⟩ := by
  have h := claim_unconfigured_simulation
    ⟨some "smtp.example.com", some "ops@example.com", none, none, none,
     "production"⟩ (Or.inr (Or.inr rfl))
  exact ⟨h.1, h.2 "production" none _ (by decide)⟩

/-- C4 counterexample: in production with all SMTP credentials missing
(service unconfigured, no transporter), `sendEmail` on a valid
recipient returns success (`true`, simulated, no transport contact) —
not the failure the claim asserts for "fully production paths without a
configured transport". -/
theorem claim_unconfigured_production_counterexample :
    sendEmail "production"
      (serviceConfigured ⟨none, none, none, none, none, "production"⟩) none
      ⟨["ops@example.com"], "Email System Test", none, none, none, none, none, none⟩
      = ⟨true, 0, true⟩ := by
  rfl

/-- C6: a rate-limiter rejection makes both handlers answer 429 with
the fixed message and no email dispatch, whatever the payload — in
particular the result does not depend on the payload at all, so schema
validation cannot have run. -/
theorem claim_rate_limit_short_circuit (zodEmail : String → Bool) (nodeEnv : String)
    (configured : Bool) (tb : Option (Nat → Bool)) (smtpUser : String) :
    (∀ raw : RawConsultation,
        consultationPOST false zodEmail raw nodeEnv configured tb smtpUser
          = ⟨429, RespKind.rateLimited,
              "Too many requests. Please try again in a few minutes.", none⟩) ∧
    (∀ raw : RawApplication,
        applicationsPOST false zodEmail raw nodeEnv configured tb smtpUser
          = ⟨429, RespKind.rateLimited,
              "Too many requests. Please try again in a few minutes.", none⟩) :=
  ⟨fun _ => rfl, fun _ => rfl⟩

/-- C8: the sanitizer is idempotent and scripts never survive it
(spec-modelled on parsed fragments; see `sanitizeNodes`). -/
theorem claim_sanitizer_idempotent (l : List HNode) :
    sanitizeNodes (sanitizeNodes l) = sanitizeNodes l ∧
    hasTag "script" (sanitizeNodes l) = false :=
  ⟨sanitizeNodes_of_clean _ (cleanNodes_sanitizeNodes l),
   no_script_of_clean _ (cleanNodes_sanitizeNodes l)⟩

/-- C10: `sendEmail` always returns a boolean outcome and each
representable internal failure — invalid address, missing transporter
(in the real send path), retry exhaustion — is converted into a `false`
return, never a propagated exception (the embedding is a total
function). -/
theorem claim_sendEmail_never_throws (nodeEnv : String) (configured : Bool)
    (tb : Option (Nat → Bool)) (options : EmailOptions) :
    (validateEmails options.recipients = false →
      sendEmail nodeEnv configured tb options = ⟨false, 0, false⟩) ∧
    (validateEmails options.recipients = true → ¬nodeEnv = "development" →
      configured = true → tb = none →
      sendEmail nodeEnv configured tb options = ⟨false, 0, false⟩) ∧
    (∀ f : Nat → Bool, validateEmails options.recipients = true →
      ¬nodeEnv = "development" → configured = true → tb = some f →
      (∀ n, f n = false) →
      (sendEmail nodeEnv configured tb options).result = false) := by
  refine ⟨?_, ?_, ?_⟩
  · intro hv
    simp [sendEmail, hv]
  · intro hv hdev hc ht
    subst ht
    subst hc
    simp [sendEmail, hv, hdev, sendWithRetry, maxRetries, sendWithRetryGo_none]
  · intro f hv hdev hc ht hf
    subst ht
    subst hc
    simp [sendEmail, hv, hdev, sendWithRetry, maxRetries,
      sendWithRetryGo_allFail f hf]

theorem claim_sendEmail_never_throws_witness :
    sendEmail "production" true none
      ⟨["bad address"], "s", none, none, none, none, none, none⟩
      = ⟨false, 0, false⟩ ∧
    sendEmail "production" true none
      ⟨["ops@example.com"], "s", none, none, none, none, none, none⟩
      = ⟨false, 0, false⟩ ∧
    (sendEmail "production" true (some (fun _ => false))
      ⟨["ops@example.com"], "s", none, none, none, none, none, none⟩).result
      = false := by
  refine ⟨?_, ?_, ?_⟩
  · exact (claim_sendEmail_never_throws "production" true none _).1 (by decide)
  · exact (claim_sendEmail_never_throws "production" true none _).2.1
      (by decide) (by decide) rfl rfl
  · exact (claim_sendEmail_never_throws "production" true (some (fun _ => false)) _).2.2
      _ (by decide) (by decide) rfl rfl (fun _ => rfl)

/-- C1: any payload whose honeypot field is a non-empty string is
answered with HTTP 400 and a fixed generic message, and no email is
dispatched, regardless of the validity of every other field (the
rejection comes from the schema's length-0 bound on the honeypot; see
C9 for the branch attribution). -/
theorem claim_honeypot_rejection (zodEmail : String → Bool) (nodeEnv : String)
    (configured : Bool) (tb : Option (Nat → Bool)) (smtpUser s : String)
    (hs : ¬s = "") :
    (∀ raw : RawConsultation, raw.honeypot = some (JVal.jstr s) →
        consultationPOST true zodEmail raw nodeEnv configured tb smtpUser
          = ⟨400, RespKind.validationFailed,
              "Please check your input and try again", none⟩) ∧
    (∀ raw : RawApplication, raw.honeypot = some (JVal.jstr s) →
        applicationsPOST true zodEmail raw nodeEnv configured tb smtpUser
          = ⟨400, RespKind.validationFailed,
              "Please check your input and try again", none⟩) := by
  constructor
  · intro raw hraw
    simp [consultationPOST, parseConsultation_none_of_honeypot hs hraw]
  · intro raw hraw
    simp [applicationsPOST, parseApplication_none_of_honeypot hs hraw]

/-- A bot-style consultation payload: all other fields valid, honeypot
filled. -/
def rawConsultBot : RawConsultation :=
  ⟨some (JVal.jstr "Jane Doe"), some (JVal.jstr "user@example.com"),
   some (JVal.jstr "Acme Ltd"), some (JVal.jstr "Technology"),
   some (JVal.jstr "1-10"), some (JVal.jstr "Business Strategy"),
   some (JVal.jstr "Please help with strategy."),
   some (JVal.jstr "2026-11-01"), some (JVal.jstr "bot")⟩

def rawApplicationBot : RawApplication :=
  ⟨some (JVal.jstr "Jane Doe"), some (JVal.jstr "user@example.com"),
   some (JVal.jstr "+2348012345678"),
   some (JVal.jstr "Please consider me."), some (JVal.jstr "bot")⟩

theorem claim_honeypot_rejection_witness :
    consultationPOST true validateEmail rawConsultBot "production" true none
        "ops@example.com"
      = ⟨400, RespKind.validationFailed,
          "Please check your input and try again", none⟩ ∧
    applicationsPOST true validateEmail rawApplicationBot "production" true none
        "ops@example.com"
      = ⟨400, RespKind.validationFailed,
          "Please check your input and try again", none⟩ := by
  have h := claim_honeypot_rejection validateEmail "production" true none
    "ops@example.com" "bot" (by decide)
  exact ⟨h.1 rawConsultBot rfl, h.2 rawApplicationBot rfl⟩

/-- C9: validated payloads always carry an absent or empty honeypot
(the schema bounds its length at 0), so the post-validation bot branch
can never run — no reachable input produces the `honeypotRejected`
response — and a non-empty honeypot string is always answered by the
schema-failure branch (field-level details, 400). -/
theorem claim_honeypot_branch_unreachable :
    (∀ (zodEmail : String → Bool) (raw : RawConsultation) (v : ConsultationData),
        parseConsultation zodEmail raw = some v →
        v.honeypot = none ∨ v.honeypot = some "") ∧
    (∀ (zodEmail : String → Bool) (raw : RawApplication) (v : ApplicationData),
        parseApplication zodEmail raw = some v →
        v.honeypot = none ∨ v.honeypot = some "") ∧
    (∀ (limiterSuccess : Bool) (zodEmail : String → Bool) (raw : RawConsultation)
        (nodeEnv : String) (configured : Bool) (tb : Option (Nat → Bool))
        (smtpUser : String),
        ¬(consultationPOST limiterSuccess zodEmail raw nodeEnv configured tb
            smtpUser).kind = RespKind.honeypotRejected) ∧
    (∀ (limiterSuccess : Bool) (zodEmail : String → Bool) (raw : RawApplication)
        (nodeEnv : String) (configured : Bool) (tb : Option (Nat → Bool))
        (smtpUser : String),
        ¬(applicationsPOST limiterSuccess zodEmail raw nodeEnv configured tb
            smtpUser).kind = RespKind.honeypotRejected) ∧
    (∀ (zodEmail : String → Bool) (raw : RawConsultation) (s : String)
        (nodeEnv : String) (configured : Bool) (tb : Option (Nat → Bool))
        (smtpUser : String), ¬s = "" → raw.honeypot = some (JVal.jstr s) →
        consultationPOST true zodEmail raw nodeEnv configured tb smtpUser
          = ⟨400, RespKind.validationFailed,
              "Please check your input and try again", none⟩) ∧
    (∀ (zodEmail : String → Bool) (raw : RawApplication) (s : String)
        (nodeEnv : String) (configured : Bool) (tb : Option (Nat → Bool))
        (smtpUser : String), ¬s = "" → raw.honeypot = some (JVal.jstr s) →
        applicationsPOST true zodEmail raw nodeEnv configured tb smtpUser
          = ⟨400, RespKind.validationFailed,
              "Please check your input and try again", none⟩) := by
  refine ⟨?_, ?_, ?_, ?_, ?_, ?_⟩
  · intro z raw v h; exact parseConsultation_honeypot h
  · intro z raw v h; exact parseApplication_honeypot h
  · intro l z raw nE c tb u
    cases l with
    | false => simp [consultationPOST]
    | true =>
      cases hp : parseConsultation z raw with
      | none => simp [consultationPOST, hp]
      | some v =>
        have hst : strTruthy v.honeypot = false := by
          rcases parseConsultation_honeypot hp with h0 | h0 <;> rw [h0] <;> decide
        simp only [consultationPOST, hp, hst, Bool.not_true, Bool.false_eq_true,
          if_false]
        split <;> simp
  · intro l z raw nE c tb u
    cases l with
    | false => simp [applicationsPOST]
    | true =>
      cases hp : parseApplication z raw with
      | none => simp [applicationsPOST, hp]
      | some v =>
        have hst : strTruthy v.honeypot = false := by
          rcases parseApplication_honeypot hp with h0 | h0 <;> rw [h0] <;> decide
        simp only [applicationsPOST, hp, hst, Bool.not_true, Bool.false_eq_true,
          if_false]
        split <;> simp
  · intro z raw s nE c tb u hs hraw
    simp [consultationPOST, parseConsultation_none_of_honeypot hs hraw]
  · intro z raw s nE c tb u hs hraw
    simp [applicationsPOST, parseApplication_none_of_honeypot hs hraw]

/-- A fully valid consultation payload (honeypot absent) and its
validated image. -/
def rawConsultValid : RawConsultation :=
  ⟨some (JVal.jstr "Jane Doe"), some (JVal.jstr "user@example.com"),
   some (JVal.jstr "Acme Ltd"), some (JVal.jstr "Technology"),
   some (JVal.jstr "1-10"), some (JVal.jstr "Business Strategy"),
   some (JVal.jstr "Please help with strategy."),
   some (JVal.jstr "2026-11-01"), none⟩

def consultValidData : ConsultationData :=
  ⟨"Jane Doe", "user@example.com", "Acme Ltd", "Technology", "1-10",
   "Business Strategy", "Please help with strategy.", "2026-11-01", none⟩

theorem claim_honeypot_branch_unreachable_witness :
    (consultValidData.honeypot = none ∨ consultValidData.honeypot = some "") ∧
    ¬(consultationPOST true validateEmail rawConsultBot "production" true none
        "ops@example.com").kind = RespKind.honeypotRejected ∧
    applicationsPOST true validateEmail rawApplicationBot "production" true none
        "ops@example.com"
      = ⟨400, RespKind.validationFailed,
          "Please check your input and try again", none⟩ := by
  have h := claim_honeypot_branch_unreachable
  exact ⟨h.1 validateEmail rawConsultValid consultValidData (by rfl),
         h.2.2.1 true validateEmail rawConsultBot "production" true none
           "ops@example.com",
         h.2.2.2.2.2 validateEmail rawApplicationBot "bot" "production" true none
           "ops@example.com" (by decide) rfl⟩

/-- Render data whose value is the JavaScript replacement escape for
"the matched text". -/
def dollarData : List (String × TValue) := [("name", TValue.str "$&")]

def greetTemplate : EmailTemplate :=
  ⟨"Hi \x7b\x7bname\x7d\x7d", "Hi \x7b\x7bname\x7d\x7d"⟩

/-- C5 counterexample: `render` does not substitute the value's display
string literally — a value of `$&` is expanded by `String.replace` to
the matched placeholder itself, so `Hi \x7b\x7bname\x7d\x7d` renders to
`Hi \x7b\x7bname\x7d\x7d`, not to `Hi $&` as pure string substitution
would give. -/
theorem claim_render_dollar_counterexample :
    (greetTemplate.render dollarData).html = "Hi \x7b\x7bname\x7d\x7d" ∧
    ¬(greetTemplate.render dollarData).html = "Hi $&" := by
  exact ⟨by rfl, by decide⟩

/-- C5 (amended): rendering folds the keys left to right; for each key
every leftmost non-overlapping occurrence of the literal placeholder is
replaced, and a value whose display string contains no dollar sign is
inserted verbatim (values with dollar escapes go through JavaScript's
GetSubstitution — see the counterexample); placeholders that match no
key are left verbatim; rendering is a total function and the template
record is never mutated (the result is a fresh pair built from the
template's strings, which the first two conjuncts exhibit). -/
theorem claim_render_substitution (t : EmailTemplate) (k : String) (v : TValue)
    (data : List (String × TValue)) (s : String) :
    EmailTemplate.render t [] = ⟨t.htmlTemplate, t.textTemplate⟩ ∧
    EmailTemplate.render t ((k, v) :: data)
      = EmailTemplate.render ⟨substituteKey k v t.htmlTemplate,
          substituteKey k v t.textTemplate⟩ data ∧
    (('$' ∈ v.display.toList → False) →
      substituteKey k v s
        = String.mk (joinWith v.display.toList
            (splitChunks (placeholder k) s.toList))) ∧
    joinWith (placeholder k) (splitChunks (placeholder k) s.toList) = s.toList ∧
    (∀ c ∈ splitChunks (placeholder k) s.toList,
      splitFirst (placeholder k) c = none) ∧
    (splitFirst (placeholder k) s.toList = none → substituteKey k v s = s) := by
  have hp : ¬(placeholder k).isEmpty = true := by simp [placeholder]
  refine ⟨rfl, rfl, ?_, ?_, ?_, ?_⟩
  · intro hd
    rw [substituteKey, jsReplaceAll_eq_joinWith _ _ _ hp hd]
  · exact splitChunks_reconstruct _ _ hp
  · exact splitChunks_chunk_free _ _ hp
  · intro h
    rw [substituteKey, jsReplaceAll_of_no_occurrence _ _ _ h]
    cases s
    rfl

theorem claim_render_substitution_witness :
    substituteKey "name" (TValue.str "Ann") "Hi \x7b\x7bname\x7d\x7d"
      = String.mk (joinWith "Ann".toList
          (splitChunks (placeholder "name") "Hi \x7b\x7bname\x7d\x7d".toList)) ∧
    substituteKey "name" (TValue.str "Ann") "Hi \x7b\x7bname\x7d\x7d" = "Hi Ann" ∧
    substituteKey "name" (TValue.str "Ann") "Hello" = "Hello" := by
  have h := claim_render_substitution ⟨"", ""⟩ "name" (TValue.str "Ann") []
    "Hi \x7b\x7bname\x7d\x7d"
  have h2 := claim_render_substitution ⟨"", ""⟩ "name" (TValue.str "Ann") [] "Hello"
  exact ⟨h.2.2.1 (by decide), by decide, h2.2.2.2.2.2 (by decide)⟩

/-- A consultation payload with a mixed-case address and none of the
transforms the claim asserts. -/
def rawConsultUpper : RawConsultation :=
  ⟨some (JVal.jstr "Jane Doe"), some (JVal.jstr "USER@EXAMPLE.COM"),
   some (JVal.jstr "Acme Ltd"), some (JVal.jstr "Technology"),
   some (JVal.jstr "1-10"), some (JVal.jstr "Business Strategy"),
   some (JVal.jstr "Please help with strategy."),
   some (JVal.jstr "2026-11-01"), none⟩

/-- C7 counterexample: the consultation schema accepts an upper-case
address and returns it verbatim — not lower-cased — so "for every route
handler, submitted email addresses are lower-cased and trimmed before
validation" fails on the consultation (and likewise application)
route. -/
theorem claim_normalization_counterexample :
    (parseConsultation validateEmail rawConsultUpper).map ConsultationData.email
      = some "USER@EXAMPLE.COM" ∧
    ¬trimStr (lowerStr "USER@EXAMPLE.COM") = "USER@EXAMPLE.COM" := by
  exact ⟨by rfl, by decide⟩

theorem contactEmailOk_raw {z : String → Bool} {o : Option JVal}
    (h : contactEmailOk z o = true) :
    z (getStr o) = true ∧ validateEmail (getStr o) = true := by
  cases o with
  | none => simp [contactEmailOk] at h
  | some j =>
    cases j with
    | jstr s => simpa [contactEmailOk, getStr] using h
    | jother => simp [contactEmailOk] at h

/-- C7 (amended): only the contact schema normalises — its accepted
email is the lower-cased-then-trimmed raw value and its name and
message are trimmed, with the validation checks applied to the raw,
untransformed value; the consultation and application schemas return
every accepted field verbatim. -/
theorem claim_schema_normalization (zodEmail zodDatetime : String → Bool) :
    (∀ (r : RawContact) (v : ContactData),
        parseContact zodEmail zodDatetime r = some v →
        v.email = trimStr (lowerStr (getStr r.email)) ∧
        v.name = trimStr (getStr r.name) ∧
        v.message = trimStr (getStr r.message) ∧
        zodEmail (getStr r.email) = true ∧
        validateEmail (getStr r.email) = true) ∧
    (∀ (r : RawConsultation) (v : ConsultationData),
        parseConsultation zodEmail r = some v →
        v.name = getStr r.name ∧ v.email = getStr r.email ∧
        v.company = getStr r.company ∧ v.message = getStr r.message ∧
        v.preferredDate = getStr r.preferredDate) ∧
    (∀ (r : RawApplication) (v : ApplicationData),
        parseApplication zodEmail r = some v →
        v.name = getStr r.name ∧ v.email = getStr r.email ∧
        v.phone = getStr r.phone ∧ v.message = getStr r.message) := by
  refine ⟨?_, ?_, ?_⟩
  · intro r v h
    rw [parseContact] at h
    split at h
    · rename_i hcond
      cases h
      simp only [Bool.and_eq_true] at hcond
      obtain ⟨⟨⟨⟨hname, hemail⟩, hmsg⟩, hts⟩, hhp⟩ := hcond
      exact ⟨rfl, rfl, rfl, (contactEmailOk_raw hemail).1,
        (contactEmailOk_raw hemail).2⟩
    · cases h
  · intro r v h
    rw [parseConsultation] at h
    split at h
    · cases h
      exact ⟨rfl, rfl, rfl, rfl, rfl⟩
    · cases h
  · intro r v h
    rw [parseApplication] at h
    split at h
    · cases h
      exact ⟨rfl, rfl, rfl, rfl⟩
    · cases h

def rawContactMixed : RawContact :=
  ⟨some (JVal.jstr "Jane Doe"), some (JVal.jstr "User@Example.COM"),
   some (JVal.jstr "A sufficiently long message."), none, none⟩

def contactMixedData : ContactData :=
  ⟨"Jane Doe", "user@example.com", "A sufficiently long message.", none, none⟩

theorem claim_schema_normalization_witness :
    contactMixedData.email = trimStr (lowerStr (getStr rawContactMixed.email)) ∧
    contactMixedData.name = trimStr (getStr rawContactMixed.name) ∧
    contactMixedData.message = trimStr (getStr rawContactMixed.message) ∧
    validateEmail (getStr rawContactMixed.email) = true ∧
    validateEmail (getStr rawContactMixed.email) = true :=
  (claim_schema_normalization validateEmail (fun _ => true)).1
    rawContactMixed contactMixedData (by rfl)
